import Mathlib

/-!
Shallow embedding of `check_changelog.py` (changelog differential checker).

The script defines a changelog data model (`ChangelogSectionType`,
`ChangelogSection`, `ChangelogVersion`, `ChangelogItem`, `Changelog`),
a line-oriented parser `Changelog.parse`, four validation rules
(`TesterChangelogProperlyChanged`, `TesterNewChangelogItemsVersion`,
`TesterNewChangelogItemsHasSection`, `TesterNewChangelogSectionsHasText`)
and a runner (`main`) that executes all four rules, records failures
non-fatally and swallows `AssertionError`s.

Python strings are modelled as `String`/`List Char`; `str.split("\n")`,
`str.strip()` and `str.upper()` are re-implemented as structural
recursions over `List Char` so that every definition evaluates inside the
kernel.  Python exceptions that can escape the modelled code
(`AttributeError`, `IndexError`, `KeyError`, `ValueError`,
`AssertionError`) are made explicit in the result types.
-/

set_option maxRecDepth 4000

/-- `ChangelogSectionType` enum of the script (member names kept verbatim). -/
inductive ChangelogSectionType where
  | UNDEFINED
  | ADDED
  | CHANGED
  | DEPRECATED
  | REMOVED
  | FIXED
  | SECURITY
deriving DecidableEq

/-- `ChangelogSection`: a category together with its free text.
`__eq__` compares both fields, which is the derived structural equality. -/
structure ChangelogSection where
  type : ChangelogSectionType
  text : String
deriving DecidableEq

/-- `ChangelogVersion`: `major.minor.patch[-pre][+build]`.
`__eq__` compares all five fields (derived structural equality). -/
structure ChangelogVersion where
  major : Nat
  minor : Nat
  patch : Nat
  pre : Option String
  build : Option String
deriving DecidableEq

/-- `ChangelogItem`: one version entry.  `__eq__` is structural on
version, date and the ordered section list. -/
structure ChangelogItem where
  version : ChangelogVersion
  date : Option String
  sections : List ChangelogSection
deriving DecidableEq

/-- `Changelog`: the ordered item list; `__eq__` is structural. -/
structure Changelog where
  items : List ChangelogItem
deriving DecidableEq

/-- `ChangelogItem()` constructor default: version `0.0.0`, no date, no
sections. -/
def emptyItem : ChangelogItem :=
  { version := { major := 0, minor := 0, patch := 0, pre := none, build := none }
    date := none
    sections := [] }

/-- `ChangelogVersion.__lt__`: lexicographic on `(major, minor, patch)`
only; `pre` and `build` are not consulted.  Direct transcription of the
boolean formula in the source. -/
def ChangelogVersion.lt (a b : ChangelogVersion) : Bool :=
  decide (a.major < b.major)
    || (decide (a.major = b.major) && decide (a.minor < b.minor))
    || (decide (a.major = b.major) && decide (a.minor = b.minor) && decide (a.patch < b.patch))

/-- `ChangelogVersion.__gt__`: mirror image of `__lt__`. -/
def ChangelogVersion.gt (a b : ChangelogVersion) : Bool :=
  decide (b.major < a.major)
    || (decide (a.major = b.major) && decide (b.minor < a.minor))
    || (decide (a.major = b.major) && decide (a.minor = b.minor) && decide (b.patch < a.patch))

/-- `ChangelogVersion.__eq__`: all five fields must agree. -/
def ChangelogVersion.eqb (a b : ChangelogVersion) : Bool :=
  decide (a.major = b.major) && decide (a.minor = b.minor) && decide (a.patch = b.patch)
    && decide (a.pre = b.pre) && decide (a.build = b.build)

/-! ### Decimal rendering of naturals (`"{}".format(n)` in the source)

Implemented with an explicit fuel argument (`fuel = n + 1` always
suffices) so that the definition is structurally recursive and evaluates
inside the kernel. -/

/-- The decimal digit character for `n < 10` (`'0'` is code point 48). -/
def natDigitChar (n : Nat) : Char := Char.ofNat (48 + n)

/-- Fuel-driven decimal rendering accumulator. -/
def natToDigitsCore : Nat → Nat → List Char → List Char
  | 0, _, acc => acc
  | fuel + 1, n, acc =>
      if n < 10 then natDigitChar n :: acc
      else natToDigitsCore fuel (n / 10) (natDigitChar (n % 10) :: acc)

/-- Decimal digit list of `n`, most significant first. -/
def natToDigits (n : Nat) : List Char := natToDigitsCore (n + 1) n []

/-- `int(s)` on a digit string: fold of `acc * 10 + digit`. -/
def digitsToNat (cs : List Char) : Nat :=
  cs.foldl (fun a c => a * 10 + (c.toNat - 48)) 0

/-! ### Python string primitives used by the script -/

/-- Greedy prefix split: `spanP p cs = (longest prefix where p holds, rest)`.
Used to model the greedy quantifiers of the regular expressions. -/
def spanP (p : Char → Bool) : List Char → List Char × List Char
  | [] => ([], [])
  | c :: cs =>
      if p c then
        let r := spanP p cs
        (c :: r.1, r.2)
      else ([], c :: cs)

/-- `str.strip()`: drop leading and trailing whitespace. -/
def stripChars (cs : List Char) : List Char :=
  ((cs.dropWhile Char.isWhitespace).reverse.dropWhile Char.isWhitespace).reverse

/-- Accumulator for `splitLines`. -/
def splitLinesAux : List Char → List Char → List (List Char)
  | [], acc => [acc.reverse]
  | c :: rest, acc =>
      if c = '\n' then acc.reverse :: splitLinesAux rest []
      else splitLinesAux rest (c :: acc)

/-- `data.split("\n")`: split on newline, keeping empty pieces
(`"".split("\n") == [""]`, `"a\n".split("\n") == ["a", ""]`). -/
def splitLines (cs : List Char) : List (List Char) := splitLinesAux cs []

/-! ### `ChangelogVersion.from_str` and `ChangelogVersion.__str__`

The version pattern of the source is
`^(?P<major>\d+)\.(?P<minor>\d+)\.(?P<patch>\d+)(\-(?P<pre>[^\+]+))?(\+(?P<build>.+))?$`.
All quantifiers are greedy and no useful backtracking exists (`\d` cannot
match `.` or `-`, `[^\+]` cannot match `+`), so the match is computed
deterministically below.  `\d` is modelled as the ASCII digit test and
`$` as strict end of input; the inputs the script feeds to this matcher
are stripped single lines, where these coincide with the Python
semantics. -/

/-- The optional `(\-(?P<pre>[^\+]+))?(\+(?P<build>.+))?$` tail of the
version pattern: `pre` is a nonempty run of non-`+` characters, `build`
a nonempty remainder (in which `.` cannot match a newline). -/
def matchVersionTail : List Char → Option (Option String × Option String)
  | [] => some (none, none)
  | c :: t =>
      if c = '-' then
        let r := spanP (fun c2 => c2 != '+') t
        if r.1 = [] then none
        else
          match r.2 with
          | [] => some (some (String.mk r.1), none)
          | c2 :: b =>
              if c2 = '+' then
                if b = [] then none
                else if b.any (fun c3 => c3 == '\n') then none
                else some (some (String.mk r.1), some (String.mk b))
              else none
      else if c = '+' then
        if t = [] then none
        else if t.any (fun c3 => c3 == '\n') then none
        else some (none, some (String.mk t))
      else none

/-- Full-match of `ChangelogVersion.PARSER` against a character list. -/
def matchVersionChars (cs : List Char) : Option ChangelogVersion :=
  let r1 := spanP Char.isDigit cs
  if r1.1 = [] then none
  else
    match r1.2 with
    | [] => none
    | c1 :: rest1 =>
        if c1 = '.' then
          let r2 := spanP Char.isDigit rest1
          if r2.1 = [] then none
          else
            match r2.2 with
            | [] => none
            | c2 :: rest2 =>
                if c2 = '.' then
                  let r3 := spanP Char.isDigit rest2
                  if r3.1 = [] then none
                  else
                    match matchVersionTail r3.2 with
                    | none => none
                    | some (p, b) =>
                        some { major := digitsToNat r1.1, minor := digitsToNat r2.1,
                               patch := digitsToNat r3.1, pre := p, build := b }
                else none
        else none

/-- `ChangelogVersion.from_str` on a character list: the case-insensitive
`"unreleased"` test (via `.upper()`), else the pattern match; `none`
models the `ValueError` raised on a failed match. -/
def fromChars (cs : List Char) : Option ChangelogVersion :=
  if cs.map Char.toUpper = "UNRELEASED".data then
    some { major := 0, minor := 0, patch := 0, pre := none, build := none }
  else matchVersionChars cs

/-- `ChangelogVersion.from_str` on a string. -/
def ChangelogVersion.fromStr (s : String) : Option ChangelogVersion :=
  fromChars s.data

/-- The character list rendered by the non-sentinel branch of
`ChangelogVersion.__str__`: `major.minor.patch` then `-pre` and `+build`
when present. -/
def versionChars (v : ChangelogVersion) : List Char :=
  natToDigits v.major ++ '.' ::
    (natToDigits v.minor ++ '.' ::
      (natToDigits v.patch ++
        ((match v.pre with
          | none => []
          | some p => '-' :: p.data) ++
         (match v.build with
          | none => []
          | some b => '+' :: b.data))))

/-- `ChangelogVersion.__str__`: `"Unreleased"` whenever the numeric
triple is all zero (whatever `pre`/`build` hold), else the rendered
version string. -/
def versionToString (v : ChangelogVersion) : String :=
  if v.major = 0 ∧ v.minor = 0 ∧ v.patch = 0 then "Unreleased"
  else String.mk (versionChars v)

/-! ### `Changelog.parse`

The parser walks the lines of `data.split("\n")`, strips each line and
dispatches on the `startswith` chain `"# "` / `"## "` / `"### "` / free
text.  Unhandled Python exceptions that can escape the loop are modelled
explicitly: `AttributeError` (attribute access on `None`), `IndexError`
(`[-1]` on an empty list), `KeyError` (unknown enum member) and
`ValueError` (raised by `from_str`). -/

/-- The Python exceptions the parse loop can raise. -/
inductive PyError where
  | attributeError
  | indexError
  | keyError
  | valueError
deriving DecidableEq

/-- Result of `Changelog.parse`: a normal return of the (possibly
`None`) changelog object, or an uncaught exception. -/
inductive ParseOutcome where
  | ret : Option Changelog → ParseOutcome
  | exc : PyError → ParseOutcome
deriving DecidableEq

/-- Result of processing one line: continue the loop with a new state,
take the early `return None`, or raise. -/
inductive StepResult where
  | cont : Option Changelog → StepResult
  | retNone : StepResult
  | exc : PyError → StepResult
deriving DecidableEq

/-- Replace the last element of a list (`xs[-1].f = ...` mutation). -/
def modifyLast (f : α → α) : List α → List α
  | [] => []
  | [a] => [f a]
  | a :: b :: rest => a :: modifyLast f (b :: rest)

/-- `xs[-1]` as an option (`none` models the `IndexError` on `[]`). -/
def lastOpt : List α → Option α
  | [] => none
  | [a] => some a
  | _ :: b :: rest => lastOpt (b :: rest)

/-- Full-match of `Changelog.ITEM_PARSER`
(`^##\s+\[(?P<version>[^\]]+)\](\s+\-\s+(?P<date>\S+))?$`) against a
character list, returning the `version` and optional `date` groups.
`[^\]]+` and `[^\+]+`-style classes are cut greedily; `\S+` followed by
`$` forces the date to be the nonempty whitespace-free remainder. -/
def itemMatch : List Char → Option (List Char × Option (List Char))
  | '#' :: '#' :: rest =>
      let w1 := spanP Char.isWhitespace rest
      if w1.1 = [] then none
      else
        match w1.2 with
        | '[' :: r2 =>
            let vs := spanP (fun c => c != ']') r2
            if vs.1 = [] then none
            else
              match vs.2 with
              | ']' :: r4 =>
                  match r4 with
                  | [] => some (vs.1, none)
                  | _ =>
                      let w2 := spanP Char.isWhitespace r4
                      if w2.1 = [] then none
                      else
                        match w2.2 with
                        | '-' :: r6 =>
                            let w3 := spanP Char.isWhitespace r6
                            if w3.1 = [] then none
                            else if w3.2 = [] then none
                            else if w3.2.all (fun c => !c.isWhitespace) then
                              some (vs.1, some w3.2)
                            else none
                        | _ => none
              | _ => none
        | _ => none
  | _ => none

/-- Full-match of `Changelog.SECTION_PARSER` (`^###\s+(?P<type>\S+)$`),
returning the `type` group. -/
def sectionMatch : List Char → Option (List Char)
  | '#' :: '#' :: '#' :: rest =>
      let w1 := spanP Char.isWhitespace rest
      if w1.1 = [] then none
      else if w1.2 = [] then none
      else if w1.2.all (fun c => !c.isWhitespace) then some w1.2
      else none
  | _ => none

/-- `ChangelogSectionType[name]` for an upper-cased `name`; `none`
models the `KeyError` on unknown members. -/
def sectionTypeOfName (cs : List Char) : Option ChangelogSectionType :=
  if cs = "UNDEFINED".data then some .UNDEFINED
  else if cs = "ADDED".data then some .ADDED
  else if cs = "CHANGED".data then some .CHANGED
  else if cs = "DEPRECATED".data then some .DEPRECATED
  else if cs = "REMOVED".data then some .REMOVED
  else if cs = "FIXED".data then some .FIXED
  else if cs = "SECURITY".data then some .SECURITY
  else none

/-- One iteration of the parse loop on an already-stripped line `l`,
with `st` the current `changelog` variable (`none` = Python `None`).
The guard order is exactly the source's `startswith` chain. -/
def lineStep (st : Option Changelog) (l : List Char) : StepResult :=
  if l = [] then .cont st
  else if l.take 2 = ['#', ' '] then
    -- "# ": only one title line allowed
    match st with
    | some _ => .retNone
    | none => .cont (some { items := [] })
  else if l.take 3 = ['#', '#', ' '] then
    -- "## ": new item; the pattern is matched first, then `from_str`
    -- runs (ValueError on bad version), then the item is appended to
    -- `changelog.items` (AttributeError when no document started).
    match itemMatch l with
    | none => .retNone
    | some (vs, d) =>
        match fromChars vs with
        | none => .exc .valueError
        | some v =>
            match st with
            | none => .exc .attributeError
            | some c =>
                .cont (some { items := c.items ++
                  [{ version := v, date := d.map String.mk, sections := [] }] })
  else if l.take 4 = ['#', '#', '#', ' '] then
    -- "### ": `changelog.items` is consulted first (AttributeError on
    -- `None`, early return on empty), then the pattern, then the enum
    -- lookup (KeyError on unknown type), then the append.
    match st with
    | none => .exc .attributeError
    | some c =>
        match c.items with
        | [] => .retNone
        | _ :: _ =>
            match sectionMatch l with
            | none => .retNone
            | some ty =>
                match sectionTypeOfName (ty.map Char.toUpper) with
                | none => .exc .keyError
                | some t =>
                    let addSec := fun (it : ChangelogItem) =>
                      { version := it.version, date := it.date,
                        sections := it.sections ++ [{ type := t, text := "" }] : ChangelogItem }
                    .cont (some { items := modifyLast addSec c.items })
  else
    -- free text: `changelog.items[-1].sections[-1]` (AttributeError on
    -- `None`, IndexError on an empty item or section list), then the
    -- stripped line plus a newline is appended to the section text.
    match st with
    | none => .exc .attributeError
    | some c =>
        match lastOpt c.items with
        | none => .exc .indexError
        | some it =>
            match lastOpt it.sections with
            | none => .exc .indexError
            | some _ =>
                let addText := fun (sec : ChangelogSection) =>
                  { type := sec.type, text := sec.text ++ String.mk l ++ "\n" : ChangelogSection }
                let inLast := fun (it2 : ChangelogItem) =>
                  { version := it2.version, date := it2.date,
                    sections := modifyLast addText it2.sections : ChangelogItem }
                .cont (some { items := modifyLast inLast c.items })

/-- The parse loop over the split lines; at the end the current state is
returned (so a run that never saw a `"# "` line returns `None`). -/
def parseLines : Option Changelog → List (List Char) → ParseOutcome
  | st, [] => .ret st
  | st, l :: ls =>
      match lineStep st (stripChars l) with
      | .cont st' => parseLines st' ls
      | .retNone => .ret none
      | .exc e => .exc e

/-- `Changelog.parse(data)`. -/
def Changelog.parse (data : String) : ParseOutcome :=
  parseLines none (splitLines data.data)

/-! ### The four validation rules

Each `Tester*.test(prev, curr)` either returns a `(passed, message)`
pair or raises `AssertionError` from a failed `assert`; `TRes` makes
the two outcomes explicit. -/

/-- Outcome of one tester: a returned `(bool, message)` pair, or an
`AssertionError` escaping from a failed `assert`. -/
inductive TRes where
  | err : TRes
  | res : Bool → String → TRes
deriving DecidableEq

/-- Loop body of `TesterChangelogProperlyChanged.test`: walk the two
item lists in step; exhausting `curr` first is a removal, a structural
mismatch is a modification. -/
def properGo : List ChangelogItem → List ChangelogItem → TRes
  | [], _ => .res true ""
  | _ :: _, [] => .res false "It is not allowed to remove items from changelog."
  | p :: ps, c :: cs =>
      if p = c then properGo ps cs
      else .res false "It is not allowed to modify items in changelog."

/-- `TesterChangelogProperlyChanged.test` (no `assert`, never raises). -/
def testChangelogProperlyChanged (prev curr : Changelog) : TRes :=
  properGo prev.items curr.items

/-- Loop body of `TesterNewChangelogItemsVersion.test`: compare each
element with its predecessor, starting from the pair
`(curr.items[start-1], curr.items[start])`. -/
def monoGo : List ChangelogItem → TRes
  | a :: b :: rest =>
      if ChangelogVersion.lt b.version a.version then
        .res false "Changelog items should have increasing versions."
      else monoGo (b :: rest)
  | _ => .res true ""

/-- `TesterNewChangelogItemsVersion.test`: asserts
`len(prev.items) <= len(curr.items)`, sets
`start = max(len(prev.items), 1)` and checks that versions from `start`
on never decrease. -/
def testNewChangelogItemsVersion (prev curr : Changelog) : TRes :=
  if prev.items.length ≤ curr.items.length then
    monoGo (curr.items.drop ((if prev.items.length = 0 then 1 else prev.items.length) - 1))
  else .err

/-- Loop body of `TesterNewChangelogItemsHasSection.test` over the new
items `curr.items[len(prev.items):]`. -/
def hasSectionGo : List ChangelogItem → TRes
  | [] => .res true ""
  | it :: rest =>
      if it.sections.length = 0 then
        .res false "There must be at lease one section for each changelog item."
      else hasSectionGo rest

/-- `TesterNewChangelogItemsHasSection.test`. -/
def testNewChangelogItemsHasSection (prev curr : Changelog) : TRes :=
  if prev.items.length ≤ curr.items.length then
    hasSectionGo (curr.items.drop prev.items.length)
  else .err

/-- Loop body of `TesterNewChangelogSectionsHasText.test`: each new
item first passes through `assert len(item.sections) > 0`, then its
sections are scanned for empty text. -/
def sectionsTextGo : List ChangelogItem → TRes
  | [] => .res true ""
  | it :: rest =>
      if it.sections.length = 0 then .err
      else if it.sections.any (fun s => s.text == "") then
        .res false "Empty section is not allowed."
      else sectionsTextGo rest

/-- `TesterNewChangelogSectionsHasText.test`. -/
def testNewChangelogSectionsHasText (prev curr : Changelog) : TRes :=
  if prev.items.length ≤ curr.items.length then
    sectionsTextGo (curr.items.drop prev.items.length)
  else .err

/-! ### The rule runner of `main`

`main` iterates over the fixed tester list; a `False` result calls
`TestTool.test_fail(msg, instant_fail=False)` (prints, sets the process
failure code to 1 and returns — the loop continues), and an
`AssertionError` is swallowed by `except AssertionError: pass`. -/

/-- The ordered tester results, in the order of the `testers` list. -/
def testerResults (prev curr : Changelog) : List TRes :=
  [testChangelogProperlyChanged prev curr,
   testNewChangelogItemsVersion prev curr,
   testNewChangelogItemsHasSection prev curr,
   testNewChangelogSectionsHasText prev curr]

/-- The failure message a tester outcome contributes, if any: only a
returned `(False, msg)` counts; passes and `AssertionError`s do not. -/
def failMsg : TRes → Option String
  | .res false m => some m
  | _ => none

/-- Fold step of the runner loop: state is
`(TestTool.failure_code, messages printed by test_fail so far)`. -/
def runStep (acc : Nat × List String) (r : TRes) : Nat × List String :=
  match r with
  | .err => acc
  | .res true _ => acc
  | .res false m => (1, acc.2 ++ [m])

/-- The tester loop of `main`: final failure code and the failure
messages reported, in order. -/
def runTesters (prev curr : Changelog) : Nat × List String :=
  (testerResults prev curr).foldl runStep (0, [])

/-! ### Facts about the decimal rendering -/

theorem natToDigitsCore_eq (n : Nat) :
    ∀ fuel acc, n < fuel → natToDigitsCore fuel n acc = natToDigits n ++ acc := by
  induction n using Nat.strong_induction_on with
  | _ n ih =>
      intro fuel acc h
      rcases fuel with _ | f
      · omega
      by_cases h10 : n < 10
      · simp only [natToDigitsCore, natToDigits, if_pos h10]
        rfl
      · have hdiv : n / 10 < n := Nat.div_lt_self (by omega) (by omega)
        simp only [natToDigitsCore, if_neg h10]
        rw [ih (n / 10) hdiv f _ (by omega)]
        have hn : natToDigits n = natToDigits (n / 10) ++ [natDigitChar (n % 10)] := by
          rw [natToDigits]
          simp only [natToDigitsCore, if_neg h10]
          rw [ih (n / 10) hdiv n _ (by omega)]
        rw [hn]
        simp

/-- Unfolding rule: for `n ≥ 10` the rendering is the rendering of
`n / 10` followed by the last digit. -/
theorem natToDigits_step (n : Nat) (h : ¬ n < 10) :
    natToDigits n = natToDigits (n / 10) ++ [natDigitChar (n % 10)] := by
  have hdiv : n / 10 < n := Nat.div_lt_self (by omega) (by omega)
  rw [natToDigits]
  simp only [natToDigitsCore, if_neg h]
  exact natToDigitsCore_eq (n / 10) n _ (by omega)

theorem natToDigits_small (n : Nat) (h : n < 10) :
    natToDigits n = [natDigitChar n] := by
  rw [natToDigits, natToDigitsCore, if_pos h]

theorem natToDigits_ne_nil (n : Nat) : natToDigits n ≠ [] := by
  by_cases h : n < 10
  · rw [natToDigits_small n h]; simp
  · rw [natToDigits_step n h]; simp

theorem natDigitChar_isDigit : ∀ k, k < 10 → (natDigitChar k).isDigit = true := by
  decide

theorem natToDigits_all_digits (n : Nat) :
    ∀ c ∈ natToDigits n, c.isDigit = true := by
  induction n using Nat.strong_induction_on with
  | _ n ih =>
      by_cases h : n < 10
      · rw [natToDigits_small n h]
        intro c hc
        simp only [List.mem_singleton] at hc
        subst hc
        exact natDigitChar_isDigit n h
      · rw [natToDigits_step n h]
        intro c hc
        rcases List.mem_append.mp hc with h1 | h1
        · exact ih (n / 10) (Nat.div_lt_self (by omega) (by omega)) c h1
        · simp only [List.mem_singleton] at h1
          subst h1
          exact natDigitChar_isDigit (n % 10) (Nat.mod_lt _ (by omega))

theorem digitsToNat_small : ∀ k, k < 10 → digitsToNat [natDigitChar k] = k := by
  decide

theorem digitsToNat_natToDigits (n : Nat) : digitsToNat (natToDigits n) = n := by
  induction n using Nat.strong_induction_on with
  | _ n ih =>
      by_cases h : n < 10
      · rw [natToDigits_small n h]; exact digitsToNat_small n h
      · rw [natToDigits_step n h]
        have hlast : ∀ k, k < 10 → (natDigitChar k).toNat - 48 = k := by decide
        have := ih (n / 10) (Nat.div_lt_self (by omega) (by omega))
        simp only [digitsToNat, List.foldl_append, List.foldl_cons, List.foldl_nil] at this ⊢
        rw [this, hlast (n % 10) (Nat.mod_lt _ (by omega))]
        omega

theorem natToDigits_head (n : Nat) :
    ∃ k t, k < 10 ∧ natToDigits n = natDigitChar k :: t := by
  induction n using Nat.strong_induction_on with
  | _ n ih =>
      by_cases h : n < 10
      · exact ⟨n, [], h, natToDigits_small n h⟩
      · rcases ih (n / 10) (Nat.div_lt_self (by omega) (by omega)) with ⟨k, t, hk, ht⟩
        exact ⟨k, t ++ [natDigitChar (n % 10)], hk, by rw [natToDigits_step n h, ht]; rfl⟩

/-! ### Parser helper lemmas -/

theorem take2_shape (l : List Char) (a b : Char) (h : l.take 2 = [a, b]) :
    ∃ t, l = a :: b :: t := by
  match l with
  | [] => simp at h
  | [x] => simp at h
  | x :: y :: t =>
      simp only [List.take_succ_cons, List.take_zero] at h
      injection h with h1 h2
      injection h2 with h2 _
      exact ⟨t, by rw [h1, h2]⟩

theorem lineStep_blank (st : Option Changelog) : lineStep st [] = .cont st := by
  simp [lineStep]

/-- Blank lines are skipped without changing the parser state. -/
theorem parseLines_blanks (ls : List (List Char)) :
    ∀ (st : Option Changelog) (rest : List (List Char)),
      (∀ l ∈ ls, stripChars l = []) →
      parseLines st (ls ++ rest) = parseLines st rest := by
  induction ls with
  | nil => intro st rest _; rfl
  | cons l ls ih =>
      intro st rest h
      have hl : stripChars l = [] := h l (by simp)
      show parseLines st (l :: (ls ++ rest)) = _
      rw [parseLines, hl, lineStep_blank]
      exact ih st rest (fun l' hl' => h l' (by simp [hl']))

/-- If processing a line with no document started continues the loop
with a document, the line was a `"# "` title line. -/
theorem lineStep_none_cont (l : List Char) (st' : Option Changelog)
    (h : lineStep none l = .cont st') (hne : st' ≠ none) :
    ∃ t, l = '#' :: ' ' :: t := by
  by_cases h0 : l = []
  · rw [h0, lineStep_blank] at h
    injection h with h
    exact absurd h.symm hne
  · by_cases h1 : l.take 2 = ['#', ' ']
    · exact take2_shape l '#' ' ' h1
    · exfalso
      simp only [lineStep, if_neg h0, if_neg h1] at h
      by_cases h2 : l.take 3 = ['#', '#', ' ']
      · rw [if_pos h2] at h
        rcases him : itemMatch l with _ | ⟨vs, d⟩
        · rw [him] at h; cases h
        · rw [him] at h
          rcases hfc : fromChars vs with _ | v <;> simp only [hfc] at h <;> cases h
      · rw [if_neg h2] at h
        by_cases h3 : l.take 4 = ['#', '#', '#', ' ']
        · rw [if_pos h3] at h; cases h
        · rw [if_neg h3] at h; cases h

/-- Invariant: a run of the parse loop that returns a document either
started with one or met a `"# "` title line. -/
theorem parseLines_some_title (ls : List (List Char)) :
    ∀ (st : Option Changelog) (c : Changelog),
      parseLines st ls = .ret (some c) →
      st ≠ none ∨ ∃ l ∈ ls, ∃ t, stripChars l = '#' :: ' ' :: t := by
  induction ls with
  | nil =>
      intro st c h
      left
      intro hn
      rw [hn] at h
      simp [parseLines] at h
  | cons l ls ih =>
      intro st c h
      rw [parseLines] at h
      rcases hstep : lineStep st (stripChars l) with st' | _ | e <;> rw [hstep] at h
      · rcases ih st' c h with h1 | ⟨l', hl', t, ht⟩
        · by_cases hst : st = none
          · subst hst
            rcases lineStep_none_cont _ _ hstep h1 with ⟨t, ht⟩
            exact Or.inr ⟨l, by simp, t, ht⟩
          · exact Or.inl hst
        · exact Or.inr ⟨l', by simp [hl'], t, ht⟩
      · cases h
      · cases h

/-! ### Claim theorems -/

/-- C9: `from_str` maps `"Unreleased"`, `"unreleased"` and every other
case variant of the token to the zero sentinel `{0,0,0,None,None}`, and
`__str__` of the zero sentinel is exactly `"Unreleased"`. -/
theorem unreleased_sentinel_spec :
    (∀ s : String, s.data.map Char.toUpper = "UNRELEASED".data →
        ChangelogVersion.fromStr s =
          some { major := 0, minor := 0, patch := 0, pre := none, build := none })
    ∧ ChangelogVersion.fromStr "Unreleased" =
        some { major := 0, minor := 0, patch := 0, pre := none, build := none }
    ∧ ChangelogVersion.fromStr "unreleased" =
        some { major := 0, minor := 0, patch := 0, pre := none, build := none }
    ∧ versionToString { major := 0, minor := 0, patch := 0, pre := none, build := none } =
        "Unreleased" := by
  refine ⟨?_, by decide, by decide, by decide⟩
  intro s h
  simp [ChangelogVersion.fromStr, fromChars, h]

/-- Witness for C9 at a mixed-case variant of the token. -/
theorem unreleased_sentinel_spec_witness :
    "uNrElEaSeD".data.map Char.toUpper = "UNRELEASED".data ∧
      ChangelogVersion.fromStr "uNrElEaSeD" =
        some { major := 0, minor := 0, patch := 0, pre := none, build := none } :=
  ⟨by decide, unreleased_sentinel_spec.1 "uNrElEaSeD" (by decide)⟩

/-- C7: `__lt__`/`__gt__` are exactly lexicographic comparison of the
numeric triple (so they are invariant under `pre`/`build`), `__eq__`
holds iff all five fields agree, and two versions with equal triples but
different metadata are neither less, greater nor equal. -/
theorem version_compare_spec :
    (∀ a b : ChangelogVersion, ChangelogVersion.lt a b = true ↔
        Prod.Lex (· < ·) (Prod.Lex (· < ·) (· < ·))
          (a.major, a.minor, a.patch) (b.major, b.minor, b.patch))
    ∧ (∀ a b : ChangelogVersion, ChangelogVersion.gt a b = true ↔
        Prod.Lex (· < ·) (Prod.Lex (· < ·) (· < ·))
          (b.major, b.minor, b.patch) (a.major, a.minor, a.patch))
    ∧ (∀ a b : ChangelogVersion,
        ChangelogVersion.lt a b =
          ChangelogVersion.lt { a with pre := none, build := none }
            { b with pre := none, build := none } ∧
        ChangelogVersion.gt a b =
          ChangelogVersion.gt { a with pre := none, build := none }
            { b with pre := none, build := none })
    ∧ (∀ a b : ChangelogVersion, ChangelogVersion.eqb a b = true ↔
        (a.major = b.major ∧ a.minor = b.minor ∧ a.patch = b.patch ∧
          a.pre = b.pre ∧ a.build = b.build))
    ∧ (∀ a b : ChangelogVersion,
        a.major = b.major → a.minor = b.minor → a.patch = b.patch →
        ¬ (a.pre = b.pre ∧ a.build = b.build) →
        ChangelogVersion.lt a b = false ∧ ChangelogVersion.gt a b = false ∧
          ChangelogVersion.eqb a b = false) := by
  refine ⟨?_, ?_, ?_, ?_, ?_⟩
  · intro a b
    simp only [ChangelogVersion.lt, Bool.or_eq_true, Bool.and_eq_true,
      decide_eq_true_eq, Prod.lex_def]
    omega
  · intro a b
    simp only [ChangelogVersion.gt, Bool.or_eq_true, Bool.and_eq_true,
      decide_eq_true_eq, Prod.lex_def]
    omega
  · intro a b
    constructor
    · simp [ChangelogVersion.lt]
    · simp [ChangelogVersion.gt]
  · intro a b
    simp only [ChangelogVersion.eqb, Bool.and_eq_true, decide_eq_true_eq]
    tauto
  · intro a b h1 h2 h3 h4
    refine ⟨?_, ?_, ?_⟩
    · simp [ChangelogVersion.lt, h1, h2, h3]
    · simp [ChangelogVersion.gt, h1, h2, h3]
    · rcases not_and_or.mp h4 with h | h <;> simp [ChangelogVersion.eqb, h]

/-- Witness for C7: `1.2.3-alpha` versus `1.2.3+5` — same triple,
different metadata — compare as neither less, greater nor equal. -/
theorem version_compare_spec_witness :
    ChangelogVersion.lt { major := 1, minor := 2, patch := 3, pre := some "alpha", build := none }
        { major := 1, minor := 2, patch := 3, pre := none, build := some "5" } = false ∧
    ChangelogVersion.gt { major := 1, minor := 2, patch := 3, pre := some "alpha", build := none }
        { major := 1, minor := 2, patch := 3, pre := none, build := some "5" } = false ∧
    ChangelogVersion.eqb { major := 1, minor := 2, patch := 3, pre := some "alpha", build := none }
        { major := 1, minor := 2, patch := 3, pre := none, build := some "5" } = false :=
  version_compare_spec.2.2.2.2
    { major := 1, minor := 2, patch := 3, pre := some "alpha", build := none }
    { major := 1, minor := 2, patch := 3, pre := none, build := some "5" }
    (by decide) (by decide) (by decide) (by decide)

/-- C8: a non-blank free-text line occurring before any section exists
for the current item — after an item heading, after only the title, or
before any document at all — makes `parse` raise from the unguarded
`changelog.items[-1].sections[-1]` lookup instead of returning the
clean `None` failure signal. -/
theorem parse_free_text_crash :
    Changelog.parse "# Title\n## [1.0.0]\nSome text" = .exc .indexError
    ∧ Changelog.parse "# Title\nSome text" = .exc .indexError
    ∧ Changelog.parse "Some text" = .exc .attributeError := by
  refine ⟨by decide, by decide, by decide⟩

/-- C10: an input whose lines are all blank parses to the `None` return
(not to an empty document), and any run that does produce a document saw
a `"# "` title line. -/
theorem parse_requires_title_spec :
    (∀ s : String, (∀ l ∈ splitLines s.data, stripChars l = []) →
        Changelog.parse s = .ret none)
    ∧ (∀ (s : String) (c : Changelog), Changelog.parse s = .ret (some c) →
        ∃ l ∈ splitLines s.data, ∃ t, stripChars l = '#' :: ' ' :: t) := by
  constructor
  · intro s h
    have h2 := parseLines_blanks (splitLines s.data) none [] h
    rw [List.append_nil] at h2
    rw [Changelog.parse, h2]
    rfl
  · intro s c h
    rcases parseLines_some_title (splitLines s.data) none c h with h1 | h2
    · exact absurd rfl h1
    · exact h2

/-- Witness for C10 at the empty input. -/
theorem parse_requires_title_spec_witness :
    (∀ l ∈ splitLines "".data, stripChars l = []) ∧ Changelog.parse "" = .ret none :=
  ⟨by decide, parse_requires_title_spec.1 "" (by decide)⟩

/-! ### Characterizations of the rule loops -/

theorem properGo_true_iff (p : List ChangelogItem) :
    ∀ c, properGo p c = .res true "" ↔
      ∀ i, i < p.length → i < c.length ∧ p.getD i emptyItem = c.getD i emptyItem := by
  induction p with
  | nil => intro c; simp [properGo]
  | cons a ps ih =>
      intro c
      cases c with
      | nil =>
          constructor
          · intro h; simp [properGo] at h
          · intro h; exact absurd (h 0 (by simp)).1 (by simp)
      | cons b cs =>
          by_cases hab : a = b
          · rw [properGo, if_pos hab, ih cs]
            constructor
            · intro h i hi
              cases i with
              | zero => exact ⟨by simp, by simpa [List.getD_cons_zero] using hab⟩
              | succ j =>
                  have := h j (by simpa using hi)
                  simpa [List.getD_cons_succ] using this
            · intro h j hj
              have := h (j + 1) (by simpa using hj)
              simpa [List.getD_cons_succ] using this
          · rw [properGo, if_neg hab]
            constructor
            · intro h; simp at h
            · intro h
              exact absurd (by simpa [List.getD_cons_zero] using (h 0 (by simp)).2) hab

theorem properGo_remove (p : List ChangelogItem) :
    ∀ (c : List ChangelogItem) (i : Nat), i < p.length → c.length ≤ i →
      (∀ j, j < i → p.getD j emptyItem = c.getD j emptyItem) →
      properGo p c = .res false "It is not allowed to remove items from changelog." := by
  induction p with
  | nil => intro c i hi _ _; simp at hi
  | cons a ps ih =>
      intro c i hi hlen hpre
      cases c with
      | nil => rfl
      | cons b cs =>
          cases i with
          | zero => simp at hlen
          | succ j =>
              have hab : a = b := by
                simpa [List.getD_cons_zero] using hpre 0 (by omega)
              rw [properGo, if_pos hab]
              refine ih cs j (by simpa using hi) (by simpa using hlen) ?_
              intro j' hj'
              simpa [List.getD_cons_succ] using hpre (j' + 1) (by omega)

theorem properGo_modify (p : List ChangelogItem) :
    ∀ (c : List ChangelogItem) (i : Nat), i < p.length → i < c.length →
      p.getD i emptyItem ≠ c.getD i emptyItem →
      (∀ j, j < i → p.getD j emptyItem = c.getD j emptyItem) →
      properGo p c = .res false "It is not allowed to modify items in changelog." := by
  induction p with
  | nil => intro c i hi _ _ _; simp at hi
  | cons a ps ih =>
      intro c i hi hic hne hpre
      cases c with
      | nil => simp at hic
      | cons b cs =>
          cases i with
          | zero =>
              have hab : a ≠ b := by simpa [List.getD_cons_zero] using hne
              rw [properGo, if_neg hab]
          | succ j =>
              have hab : a = b := by
                simpa [List.getD_cons_zero] using hpre 0 (by omega)
              rw [properGo, if_pos hab]
              refine ih cs j (by simpa using hi) (by simpa using hic)
                (by simpa [List.getD_cons_succ] using hne) ?_
              intro j' hj'
              simpa [List.getD_cons_succ] using hpre (j' + 1) (by omega)

/-- `properGo` always returns a `(bool, message)` pair (no `assert`). -/
theorem properGo_is_res (p : List ChangelogItem) :
    ∀ c, ∃ b m, properGo p c = .res b m := by
  induction p with
  | nil => intro c; exact ⟨true, "", rfl⟩
  | cons a ps ih =>
      intro c
      cases c with
      | nil => exact ⟨false, _, rfl⟩
      | cons b cs =>
          by_cases hab : a = b
          · rw [properGo, if_pos hab]; exact ih cs
          · rw [properGo, if_neg hab]; exact ⟨false, _, rfl⟩

/-- C1: `TesterChangelogProperlyChanged` passes exactly when every index
of `previous.items` is present and structurally equal in
`current.items`; the first divergence being a missing index yields the
removal message, a differing item the modification message. -/
theorem noRetroactiveEdits_spec :
    (∀ prev curr : Changelog,
        testChangelogProperlyChanged prev curr = .res true "" ↔
          ∀ i, i < prev.items.length → i < curr.items.length ∧
            prev.items.getD i emptyItem = curr.items.getD i emptyItem)
    ∧ (∀ (prev curr : Changelog) (i : Nat),
        i < prev.items.length → curr.items.length ≤ i →
        (∀ j, j < i → prev.items.getD j emptyItem = curr.items.getD j emptyItem) →
        testChangelogProperlyChanged prev curr =
          .res false "It is not allowed to remove items from changelog.")
    ∧ (∀ (prev curr : Changelog) (i : Nat),
        i < prev.items.length → i < curr.items.length →
        prev.items.getD i emptyItem ≠ curr.items.getD i emptyItem →
        (∀ j, j < i → prev.items.getD j emptyItem = curr.items.getD j emptyItem) →
        testChangelogProperlyChanged prev curr =
          .res false "It is not allowed to modify items in changelog.") :=
  ⟨fun prev curr => properGo_true_iff prev.items curr.items,
   fun prev curr i h1 h2 h3 => properGo_remove prev.items curr.items i h1 h2 h3,
   fun prev curr i h1 h2 h3 h4 => properGo_modify prev.items curr.items i h1 h2 h3 h4⟩

/-- Witness for C1: the spec's example — same single `1.0.0` item with
altered section text — fails with the modification message. -/
theorem noRetroactiveEdits_spec_witness :
    testChangelogProperlyChanged
      { items := [{ version := { major := 1, minor := 0, patch := 0, pre := none, build := none },
                    date := none,
                    sections := [{ type := .ADDED, text := "Initial release\n" }] }] }
      { items := [{ version := { major := 1, minor := 0, patch := 0, pre := none, build := none },
                    date := none,
                    sections := [{ type := .ADDED, text := "Changed text\n" }] }] } =
      .res false "It is not allowed to modify items in changelog." :=
  noRetroactiveEdits_spec.2.2 _ _ 0 (by decide) (by decide) (by decide)
    (fun j hj => absurd hj (by omega))

theorem getD_drop_add (l : List ChangelogItem) :
    ∀ n j, (l.drop n).getD j emptyItem = l.getD (n + j) emptyItem := by
  induction l with
  | nil => intro n j; simp
  | cons a t ih =>
      intro n j
      cases n with
      | zero => simp
      | succ m =>
          rw [show m + 1 + j = (m + j) + 1 by omega]
          simp only [List.drop_succ_cons, List.getD_cons_succ]
          exact ih m j

theorem monoGo_true_iff :
    ∀ l : List ChangelogItem, monoGo l = .res true "" ↔
      ∀ j, j + 1 < l.length →
        ChangelogVersion.lt ((l.getD (j + 1) emptyItem).version)
          ((l.getD j emptyItem).version) = false := by
  intro l
  induction l with
  | nil => simp [monoGo]
  | cons a t ih =>
      cases t with
      | nil => simp [monoGo]
      | cons b rest =>
          by_cases hlt : ChangelogVersion.lt b.version a.version = true
          · rw [monoGo, if_pos hlt]
            constructor
            · intro h; simp at h
            · intro h
              have := h 0 (by simp)
              rw [List.getD_cons_succ, List.getD_cons_zero, List.getD_cons_zero] at this
              rw [hlt] at this
              cases this
          · have hlf : ChangelogVersion.lt b.version a.version = false :=
              Bool.not_eq_true _ ▸ (Bool.eq_false_iff.mpr (fun h => hlt h))
            rw [monoGo, if_neg hlt, ih]
            constructor
            · intro h j hj
              cases j with
              | zero =>
                  rw [List.getD_cons_succ, List.getD_cons_zero, List.getD_cons_zero]
                  exact hlf
              | succ k =>
                  have := h k (by simpa using hj)
                  simpa [List.getD_cons_succ] using this
            · intro h k hk
              have := h (k + 1) (by simpa using hk)
              simpa [List.getD_cons_succ] using this

theorem monoGo_cases :
    ∀ l : List ChangelogItem, monoGo l = .res true "" ∨
      monoGo l = .res false "Changelog items should have increasing versions." := by
  intro l
  induction l with
  | nil => exact Or.inl rfl
  | cons a t ih =>
      cases t with
      | nil => exact Or.inl rfl
      | cons b rest =>
          by_cases hlt : ChangelogVersion.lt b.version a.version = true
          · rw [monoGo, if_pos hlt]; exact Or.inr rfl
          · rw [monoGo, if_neg hlt]; exact ih

/-- C2: under the caller-asserted precondition
`len(previous.items) ≤ len(current.items)`,
`TesterNewChangelogItemsVersion` passes iff from the start index
`max(len(previous.items), 1)` on, no item's version is less than its
predecessor's; and its only other outcome is the failure message. -/
theorem monotonicNewVersions_spec :
    ∀ prev curr : Changelog, prev.items.length ≤ curr.items.length →
      ((testNewChangelogItemsVersion prev curr = .res true "" ↔
          ∀ i, max prev.items.length 1 ≤ i → i < curr.items.length →
            ChangelogVersion.lt ((curr.items.getD i emptyItem).version)
              ((curr.items.getD (i - 1) emptyItem).version) = false)
        ∧ (testNewChangelogItemsVersion prev curr = .res true "" ∨
           testNewChangelogItemsVersion prev curr =
             .res false "Changelog items should have increasing versions.")) := by
  intro prev curr h
  rw [testNewChangelogItemsVersion, if_pos h]
  set start := (if prev.items.length = 0 then 1 else prev.items.length) with hstart
  have hsmax : start = max prev.items.length 1 := by
    rw [hstart]; split <;> omega
  refine ⟨?_, monoGo_cases _⟩
  rw [monoGo_true_iff]
  constructor
  · intro hall i hge hilen
    rw [← hsmax] at hge
    have h1 : 1 ≤ start := by omega
    have hik : (i - start) + 1 < (curr.items.drop (start - 1)).length := by
      rw [List.length_drop]; omega
    have := hall (i - start) hik
    rw [getD_drop_add, getD_drop_add] at this
    rw [show start - 1 + (i - start + 1) = i by omega,
      show start - 1 + (i - start) = i - 1 by omega] at this
    exact this
  · intro hall j hj
    rw [List.length_drop] at hj
    have h1 : 1 ≤ start := by rw [hstart]; split <;> omega
    rw [getD_drop_add, getD_drop_add]
    have h2 : start - 1 + (j + 1) < curr.items.length := by omega
    have := hall (start - 1 + (j + 1)) (by rw [← hsmax]; omega) h2
    rw [show start - 1 + (j + 1) - 1 = start - 1 + j by omega] at this
    exact this

/-- Witness for C2: the spec's example `previous = [1.0.0]`,
`current = [1.0.0, 0.9.0]` fails, derived from the characterization. -/
theorem monotonicNewVersions_spec_witness :
    testNewChangelogItemsVersion
      { items := [{ version := { major := 1, minor := 0, patch := 0, pre := none, build := none },
                    date := none, sections := [] }] }
      { items := [{ version := { major := 1, minor := 0, patch := 0, pre := none, build := none },
                    date := none, sections := [] },
                  { version := { major := 0, minor := 9, patch := 0, pre := none, build := none },
                    date := none, sections := [] }] } =
      .res false "Changelog items should have increasing versions." := by
  have h := monotonicNewVersions_spec
    { items := [{ version := { major := 1, minor := 0, patch := 0, pre := none, build := none },
                  date := none, sections := [] }] }
    { items := [{ version := { major := 1, minor := 0, patch := 0, pre := none, build := none },
                  date := none, sections := [] },
                { version := { major := 0, minor := 9, patch := 0, pre := none, build := none },
                  date := none, sections := [] }] }
    (by decide)
  rcases h.2 with ht | hf
  · exfalso
    have hvt := (h.1.mp ht) 1 (by decide) (by decide)
    have hvf : ChangelogVersion.lt
        { major := 0, minor := 9, patch := 0, pre := none, build := none }
        { major := 1, minor := 0, patch := 0, pre := none, build := none } = true := by decide
    rw [show (1 : Nat) - 1 = 0 by omega] at hvt
    rw [List.getD_cons_succ, List.getD_cons_zero, List.getD_cons_zero] at hvt
    exact Bool.false_ne_true (hvt.symm.trans hvf)
  · exact hf

theorem runFold_snd :
    ∀ (rs : List TRes) (acc : Nat × List String),
      (rs.foldl runStep acc).2 = acc.2 ++ rs.filterMap failMsg := by
  intro rs
  induction rs with
  | nil => intro acc; simp
  | cons r rs ih =>
      intro acc
      rw [List.foldl_cons, ih]
      cases r with
      | err => simp [runStep, failMsg]
      | res b m => cases b <;> simp [runStep, failMsg]

theorem runFold_fst :
    ∀ (rs : List TRes) (acc : Nat × List String),
      (rs.foldl runStep acc).1 = if rs.filterMap failMsg = [] then acc.1 else 1 := by
  intro rs
  induction rs with
  | nil => intro acc; simp
  | cons r rs ih =>
      intro acc
      rw [List.foldl_cons, ih]
      cases r with
      | err => simp [runStep, failMsg]
      | res b m =>
          cases b
          · simp [runStep, failMsg]
          · simp [runStep, failMsg]

/-- C5: the `main` tester loop attempts all four rules: the final
failure code is 1 exactly when some rule returned `(False, msg)`, the
reported messages are exactly the failure messages of all failing rules
in order (an earlier failure never truncates the run), a raised
precondition `assert` (`len(previous.items) <= len(current.items)`)
yields `AssertionError` — swallowed, contributing neither failure nor
message — and the first rule has no `assert` at all.  The concrete run
with `previous = []` and `current = [item with no sections]` shows a
recorded failure of the third rule coexisting with a swallowed
`AssertionError` of the fourth. -/
theorem ruleRunner_spec :
    (∀ prev curr : Changelog,
        ((runTesters prev curr).1 = 1 ↔ ∃ m, TRes.res false m ∈ testerResults prev curr)
        ∧ (runTesters prev curr).2 = (testerResults prev curr).filterMap failMsg)
    ∧ (∀ prev curr : Changelog, curr.items.length < prev.items.length →
        testNewChangelogItemsVersion prev curr = .err
        ∧ testNewChangelogItemsHasSection prev curr = .err
        ∧ testNewChangelogSectionsHasText prev curr = .err)
    ∧ (∀ prev curr : Changelog, ∃ b m, testChangelogProperlyChanged prev curr = .res b m)
    ∧ testNewChangelogSectionsHasText { items := [] }
        { items := [{ version := { major := 1, minor := 0, patch := 0, pre := none, build := none },
                      date := none, sections := [] }] } = .err
    ∧ runTesters { items := [] }
        { items := [{ version := { major := 1, minor := 0, patch := 0, pre := none, build := none },
                      date := none, sections := [] }] } =
        (1, ["There must be at lease one section for each changelog item."]) := by
  refine ⟨?_, ?_, ?_, by decide, by decide⟩
  · intro prev curr
    constructor
    · rw [runTesters, runFold_fst]
      constructor
      · intro h
        by_cases hf : (testerResults prev curr).filterMap failMsg = []
        · rw [if_pos hf] at h; cases h
        · rcases List.exists_mem_of_ne_nil _ hf with ⟨m, hm⟩
          rcases List.mem_filterMap.mp hm with ⟨r, hr, hfm⟩
          cases r with
          | err => simp [failMsg] at hfm
          | res b m' =>
              cases b
              · exact ⟨m', hr⟩
              · simp [failMsg] at hfm
      · rintro ⟨m, hm⟩
        rw [if_neg]
        intro hnil
        have h2 := List.filterMap_eq_nil_iff.mp hnil _ hm
        simp [failMsg] at h2
    · rw [runTesters, runFold_snd]
      simp
  · intro prev curr h
    refine ⟨?_, ?_, ?_⟩
    · rw [testNewChangelogItemsVersion, if_neg (by omega)]
    · rw [testNewChangelogItemsHasSection, if_neg (by omega)]
    · rw [testNewChangelogSectionsHasText, if_neg (by omega)]
  · intro prev curr
    exact properGo_is_res prev.items curr.items

/-- Witness for C5: with `previous` one item and `current` empty, the
length precondition fails and all three asserting rules raise (and are
thus skipped as not applicable). -/
theorem ruleRunner_spec_witness :
    (Changelog.mk []).items.length <
        (Changelog.mk [{ version := { major := 1, minor := 0, patch := 0, pre := none, build := none },
                         date := none, sections := [] }]).items.length ∧
      (testNewChangelogItemsVersion
          { items := [{ version := { major := 1, minor := 0, patch := 0, pre := none, build := none },
                        date := none, sections := [] }] } { items := [] } = .err
       ∧ testNewChangelogItemsHasSection
          { items := [{ version := { major := 1, minor := 0, patch := 0, pre := none, build := none },
                        date := none, sections := [] }] } { items := [] } = .err
       ∧ testNewChangelogSectionsHasText
          { items := [{ version := { major := 1, minor := 0, patch := 0, pre := none, build := none },
                        date := none, sections := [] }] } { items := [] } = .err) :=
  ⟨by decide, ruleRunner_spec.2.1 _ _ (by decide)⟩

theorem sectionsTextGo_char :
    ∀ l : List ChangelogItem, (∀ it ∈ l, it.sections ≠ []) →
      ((sectionsTextGo l = .res false "Empty section is not allowed." ↔
          ∃ it ∈ l, ∃ s ∈ it.sections, s.text = "")
       ∧ (sectionsTextGo l = .res true "" ↔
          ∀ it ∈ l, ∀ s ∈ it.sections, s.text ≠ "")) := by
  intro l
  induction l with
  | nil => intro _; simp [sectionsTextGo]
  | cons it rest ih =>
      intro h
      have hne : it.sections ≠ [] := h it (by simp)
      have hlen : ¬ it.sections.length = 0 := by simpa using hne
      rw [sectionsTextGo, if_neg hlen]
      have ih2 := ih (fun it' h' => h it' (by simp [h']))
      by_cases hany : it.sections.any (fun s => s.text == "") = true
      · rcases List.any_eq_true.mp hany with ⟨s, hs, hts⟩
        rw [if_pos hany]
        constructor
        · constructor
          · intro _
            exact ⟨it, by simp, s, hs, by simpa using hts⟩
          · intro _; rfl
        · constructor
          · intro hc; simp at hc
          · intro hall
            exact absurd (by simpa using hts) (hall it (by simp) s hs)
      · have hnone : ∀ s ∈ it.sections, s.text ≠ "" := by
          intro s hs he
          exact hany (List.any_eq_true.mpr ⟨s, hs, by simp [he]⟩)
        rw [if_neg hany]
        constructor
        · rw [ih2.1]
          constructor
          · rintro ⟨it', hit', s, hs, hte⟩
            exact ⟨it', by simp [hit'], s, hs, hte⟩
          · rintro ⟨it', hit', s, hs, hte⟩
            rcases List.mem_cons.mp hit' with he | hm
            · subst he
              exact absurd hte (hnone s hs)
            · exact ⟨it', hm, s, hs, hte⟩
        · rw [ih2.2]
          constructor
          · intro hrest it' hit'
            rcases List.mem_cons.mp hit' with he | hm
            · subst he
              exact hnone
            · exact hrest it' hm
          · intro hall it' hit'
            exact hall it' (by simp [hit'])

/-- C6 (amended): under the asserted length precondition and provided
every new item has at least one section (otherwise the rule's inner
`assert` raises and the rule is skipped), `TesterNewChangelogSectionsHasText`
fails with the empty-section message iff some section of some new item
has empty text, and passes iff every such section has non-empty text. -/
theorem newSectionsHaveText_spec :
    ∀ prev curr : Changelog, prev.items.length ≤ curr.items.length →
      (∀ it ∈ curr.items.drop prev.items.length, it.sections ≠ []) →
      ((testNewChangelogSectionsHasText prev curr =
            .res false "Empty section is not allowed." ↔
          ∃ it ∈ curr.items.drop prev.items.length, ∃ s ∈ it.sections, s.text = "")
       ∧ (testNewChangelogSectionsHasText prev curr = .res true "" ↔
          ∀ it ∈ curr.items.drop prev.items.length, ∀ s ∈ it.sections, s.text ≠ "")) := by
  intro prev curr h hsec
  rw [testNewChangelogSectionsHasText, if_pos h]
  exact sectionsTextGo_char _ hsec

/-- Counterexample for C6 as frozen: with `previous = []` and
`current = [item with no sections, item with an empty-text section]`,
a new item does contain an empty-text section, yet the rule does not
fail — the first item's `assert len(item.sections) > 0` raises before
the empty text is ever examined. -/
theorem newSectionsHaveText_counterexample :
    (∃ it ∈ (Changelog.mk
        [{ version := { major := 1, minor := 0, patch := 0, pre := none, build := none },
           date := none, sections := [] },
         { version := { major := 1, minor := 1, patch := 0, pre := none, build := none },
           date := none, sections := [{ type := .ADDED, text := "" }] }]).items.drop 0,
        ∃ s ∈ it.sections, s.text = "")
    ∧ testNewChangelogSectionsHasText { items := [] }
        { items := [{ version := { major := 1, minor := 0, patch := 0, pre := none, build := none },
                      date := none, sections := [] },
                    { version := { major := 1, minor := 1, patch := 0, pre := none, build := none },
                      date := none, sections := [{ type := .ADDED, text := "" }] }] } = .err
    ∧ testNewChangelogSectionsHasText { items := [] }
        { items := [{ version := { major := 1, minor := 0, patch := 0, pre := none, build := none },
                      date := none, sections := [] },
                    { version := { major := 1, minor := 1, patch := 0, pre := none, build := none },
                      date := none, sections := [{ type := .ADDED, text := "" }] }] } ≠
        .res false "Empty section is not allowed." := by
  refine ⟨by decide, by decide, by decide⟩

/-- Witness for C6 at the spec's example: a single new item with one
empty-text section makes the rule fail. -/
theorem newSectionsHaveText_spec_witness :
    (Changelog.mk []).items.length ≤
        (Changelog.mk [{ version := { major := 1, minor := 0, patch := 0, pre := none, build := none },
                         date := none, sections := [{ type := .ADDED, text := "" }] }]).items.length
    ∧ (∀ it ∈ (Changelog.mk
          [{ version := { major := 1, minor := 0, patch := 0, pre := none, build := none },
             date := none, sections := [{ type := .ADDED, text := "" }] }]).items.drop
          (Changelog.mk []).items.length, it.sections ≠ [])
    ∧ ((testNewChangelogSectionsHasText { items := [] }
          { items := [{ version := { major := 1, minor := 0, patch := 0, pre := none, build := none },
                        date := none, sections := [{ type := .ADDED, text := "" }] }] } =
            .res false "Empty section is not allowed." ↔
        ∃ it ∈ (Changelog.mk
            [{ version := { major := 1, minor := 0, patch := 0, pre := none, build := none },
               date := none, sections := [{ type := .ADDED, text := "" }] }]).items.drop
            (Changelog.mk []).items.length, ∃ s ∈ it.sections, s.text = "")
       ∧ (testNewChangelogSectionsHasText { items := [] }
            { items := [{ version := { major := 1, minor := 0, patch := 0, pre := none, build := none },
                          date := none, sections := [{ type := .ADDED, text := "" }] }] } =
            .res true "" ↔
          ∀ it ∈ (Changelog.mk
              [{ version := { major := 1, minor := 0, patch := 0, pre := none, build := none },
                 date := none, sections := [{ type := .ADDED, text := "" }] }]).items.drop
              (Changelog.mk []).items.length, ∀ s ∈ it.sections, s.text ≠ "")) :=
  ⟨by decide, by decide, newSectionsHaveText_spec _ _ (by decide) (by decide)⟩

/-- C4 counterexample: a matching `"## "` item line before any `"# "`
title line does not produce the clean `None` failure — the append to
the absent document raises `AttributeError`. -/
theorem parse_item_before_title_counterexample :
    Changelog.parse "## [1.0.0]" = .exc .attributeError
    ∧ Changelog.parse "## [1.0.0]" ≠ .ret none := by
  refine ⟨by decide, by decide⟩

/-- C4 (amended): when the first non-blank line starts with `"## "` (so
no document has been started), parse returns `None` exactly when the
line fails the item pattern; when the pattern matches, parse raises —
`ValueError` if the version string is malformed, else `AttributeError`
from `changelog.items.append` on `None`. -/
theorem parse_item_before_title_amended :
    ∀ (pre : List (List Char)) (line : List Char) (rest : List (List Char)) (t : List Char),
      (∀ l ∈ pre, stripChars l = []) →
      stripChars line = '#' :: '#' :: ' ' :: t →
      ((itemMatch ('#' :: '#' :: ' ' :: t) = none →
          parseLines none (pre ++ line :: rest) = .ret none)
       ∧ (∀ vs d, itemMatch ('#' :: '#' :: ' ' :: t) = some (vs, d) →
          ((fromChars vs = none →
              parseLines none (pre ++ line :: rest) = .exc .valueError)
           ∧ (∀ v, fromChars vs = some v →
              parseLines none (pre ++ line :: rest) = .exc .attributeError)))) := by
  intro pre line rest t hpre hline
  rw [parseLines_blanks pre none (line :: rest) hpre]
  have h0 : ('#' :: '#' :: ' ' :: t : List Char) ≠ [] := by simp
  have h1 : ('#' :: '#' :: ' ' :: t : List Char).take 2 ≠ ['#', ' '] := by simp
  have h2 : ('#' :: '#' :: ' ' :: t : List Char).take 3 = ['#', '#', ' '] := by simp
  refine ⟨?_, ?_⟩
  · intro hm
    simp only [parseLines, hline, lineStep, if_neg h0, if_neg h1, if_pos h2, hm]
  · intro vs d hm
    refine ⟨?_, ?_⟩
    · intro hfc
      simp only [parseLines, hline, lineStep, if_neg h0, if_neg h1, if_pos h2, hm, hfc]
    · intro v hfc
      simp only [parseLines, hline, lineStep, if_neg h0, if_neg h1, if_pos h2, hm, hfc]

/-- Witness for the amended C4 at the concrete line `## [1.0.0]`. -/
theorem parse_item_before_title_amended_witness :
    parseLines none ([] ++ "## [1.0.0]".data :: []) = .exc .attributeError :=
  ((parse_item_before_title_amended [] "## [1.0.0]".data [] "[1.0.0]".data
      (by decide) (by decide)).2 "1.0.0".data none (by decide)).2
    { major := 1, minor := 0, patch := 0, pre := none, build := none } (by decide)

/-! ### Version round trip (C3) -/

theorem mk_data (s : String) : String.mk s.data = s := rfl

theorem spanP_append (p : Char → Bool) :
    ∀ (xs ys : List Char), (∀ c ∈ xs, p c = true) →
      (∀ d t', ys = d :: t' → p d = false) →
      spanP p (xs ++ ys) = (xs, ys) := by
  intro xs
  induction xs with
  | nil =>
      intro ys h1 h2
      cases ys with
      | nil => rfl
      | cons d t =>
          have hd := h2 d t rfl
          simp [spanP, hd]
  | cons x xs ih =>
      intro ys h1 h2
      have hx : p x = true := h1 x (by simp)
      have hrec := ih ys (fun c hc => h1 c (by simp [hc])) h2
      simp [spanP, hx, hrec]

theorem spanP_all (p : Char → Bool) (xs : List Char) (h : ∀ c ∈ xs, p c = true) :
    spanP p xs = (xs, []) := by
  have h2 := spanP_append p xs [] h (fun d t' hdt => by cases hdt)
  simpa using h2

theorem matchVersionTail_renders :
    ∀ (pre build : Option String),
      (∀ p, pre = some p → p.data ≠ [] ∧ ∀ c ∈ p.data, c ≠ '+') →
      (∀ b, build = some b → b.data ≠ [] ∧ ∀ c ∈ b.data, c ≠ '\n') →
      matchVersionTail
        ((match pre with | none => [] | some p => '-' :: p.data) ++
         (match build with | none => [] | some b => '+' :: b.data)) = some (pre, build) := by
  intro pre build hp hb
  rcases pre with _ | p <;> rcases build with _ | b
  · rfl
  · rcases hb b rfl with ⟨hbne, hbnl⟩
    have hany : b.data.any (fun c3 => c3 == '\n') = false := by
      by_contra hc
      rw [Bool.not_eq_false] at hc
      rcases List.any_eq_true.mp hc with ⟨c, hcm, hceq⟩
      exact hbnl c hcm (by simpa using hceq)
    simp [matchVersionTail, hbne, hany, mk_data]
  · rcases hp p rfl with ⟨hpne, hpnp⟩
    have hspan : spanP (fun c2 => c2 != '+') p.data = (p.data, []) :=
      spanP_all _ _ (fun c hc => bne_iff_ne.mpr (hpnp c hc))
    simp [matchVersionTail, hspan, hpne, mk_data]
  · rcases hp p rfl with ⟨hpne, hpnp⟩
    rcases hb b rfl with ⟨hbne, hbnl⟩
    have hspan : spanP (fun c2 => c2 != '+') (p.data ++ '+' :: b.data) =
        (p.data, '+' :: b.data) :=
      spanP_append _ _ _ (fun c hc => bne_iff_ne.mpr (hpnp c hc))
        (fun d t' hdt => by injection hdt with h1 _; subst h1; decide)
    have hany : b.data.any (fun c3 => c3 == '\n') = false := by
      by_contra hc
      rw [Bool.not_eq_false] at hc
      rcases List.any_eq_true.mp hc with ⟨c, hcm, hceq⟩
      exact hbnl c hcm (by simpa using hceq)
    simp [matchVersionTail, hspan, hpne, hbne, hany, mk_data]

theorem matchVersionChars_versionChars (v : ChangelogVersion)
    (hp : ∀ p, v.pre = some p → p.data ≠ [] ∧ ∀ c ∈ p.data, c ≠ '+')
    (hb : ∀ b, v.build = some b → b.data ≠ [] ∧ ∀ c ∈ b.data, c ≠ '\n') :
    matchVersionChars (versionChars v) = some v := by
  have htail := matchVersionTail_renders v.pre v.build hp hb
  have hdot : ∀ (rest : List Char) (d : Char) (t' : List Char),
      ('.' :: rest : List Char) = d :: t' → d.isDigit = false := by
    intro rest d t' h
    injection h with h1 _
    subst h1
    decide
  have hheadtail : ∀ (d : Char) (t' : List Char),
      ((match v.pre with | none => [] | some p => '-' :: p.data) ++
        (match v.build with | none => [] | some b => '+' :: b.data)) = d :: t' →
      d.isDigit = false := by
    rcases v.pre with _ | p <;> rcases v.build with _ | b <;> intro d t' h
    · cases h
    · simp only [List.nil_append] at h
      injection h with h1 _
      subst h1
      decide
    · simp only [List.append_nil] at h
      injection h with h1 _
      subst h1
      decide
    · simp only [List.cons_append] at h
      injection h with h1 _
      subst h1
      decide
  have e3 : spanP Char.isDigit (natToDigits v.patch ++
      ((match v.pre with | none => [] | some p => '-' :: p.data) ++
        (match v.build with | none => [] | some b => '+' :: b.data))) =
      (natToDigits v.patch,
        (match v.pre with | none => [] | some p => '-' :: p.data) ++
          (match v.build with | none => [] | some b => '+' :: b.data)) :=
    spanP_append _ _ _ (natToDigits_all_digits v.patch) hheadtail
  have e2 : spanP Char.isDigit (natToDigits v.minor ++ '.' ::
      (natToDigits v.patch ++
        ((match v.pre with | none => [] | some p => '-' :: p.data) ++
          (match v.build with | none => [] | some b => '+' :: b.data)))) =
      (natToDigits v.minor, '.' ::
        (natToDigits v.patch ++
          ((match v.pre with | none => [] | some p => '-' :: p.data) ++
            (match v.build with | none => [] | some b => '+' :: b.data)))) :=
    spanP_append _ _ _ (natToDigits_all_digits v.minor) (hdot _)
  have e1 : spanP Char.isDigit (versionChars v) =
      (natToDigits v.major, '.' ::
        (natToDigits v.minor ++ '.' ::
          (natToDigits v.patch ++
            ((match v.pre with | none => [] | some p => '-' :: p.data) ++
              (match v.build with | none => [] | some b => '+' :: b.data))))) :=
    spanP_append _ _ _ (natToDigits_all_digits v.major) (hdot _)
  unfold matchVersionChars
  rw [e1]
  simp only [if_neg (natToDigits_ne_nil v.major), if_pos rfl]
  rw [e2]
  simp only [if_neg (natToDigits_ne_nil v.minor), if_pos rfl]
  rw [e3]
  simp only [if_neg (natToDigits_ne_nil v.patch)]
  rw [htail]
  simp only [digitsToNat_natToDigits, if_true]

/-- A rendered version string never passes the case-insensitive
`"unreleased"` test: its first character is a digit. -/
theorem versionChars_not_unreleased (v : ChangelogVersion) :
    (versionChars v).map Char.toUpper ≠ "UNRELEASED".data := by
  rcases natToDigits_head v.major with ⟨k, t, hk, ht⟩
  have hshape : ∃ t', versionChars v = natDigitChar k :: t' := by
    refine ⟨t ++ ('.' :: (natToDigits v.minor ++ '.' :: (natToDigits v.patch ++
      ((match v.pre with | none => [] | some p => '-' :: p.data) ++
        (match v.build with | none => [] | some b => '+' :: b.data))))), ?_⟩
    show versionChars v = (natDigitChar k :: t) ++ _
    rw [← ht]
    rfl
  rcases hshape with ⟨t', ht'⟩
  rw [ht']
  intro hcon
  rw [show "UNRELEASED".data = 'U' :: "NRELEASED".data from rfl] at hcon
  simp only [List.map_cons] at hcon
  injection hcon with h1 _
  have hup : ∀ j, j < 10 → (natDigitChar j).toUpper ≠ 'U' := by decide
  exact hup k hk h1

/-- C3 counterexample: the claim fails on canonical strings already.
`"0.0.0"` matches the pattern and parses, yet renders back as
`"Unreleased"`; and `"1.02.3"` (digits may carry leading zeros) renders
back as `"1.2.3"`. -/
theorem versionRoundTrip_counterexample :
    ChangelogVersion.fromStr "0.0.0" =
      some { major := 0, minor := 0, patch := 0, pre := none, build := none }
    ∧ versionToString { major := 0, minor := 0, patch := 0, pre := none, build := none } =
        "Unreleased"
    ∧ ("Unreleased" : String) ≠ "0.0.0"
    ∧ ChangelogVersion.fromStr "1.02.3" =
        some { major := 1, minor := 2, patch := 3, pre := none, build := none }
    ∧ versionToString { major := 1, minor := 2, patch := 3, pre := none, build := none } =
        "1.2.3"
    ∧ ("1.2.3" : String) ≠ "1.02.3" := by
  refine ⟨by decide, by decide, by decide, by decide, by decide, by decide⟩

/-- C3 (amended): `toString(parse(s)) = s` for every canonical version
string `s` that is itself the rendering of a version value — numeric
components without leading zeros, not all three zero, a nonempty `pre`
free of `'+'` and a nonempty single-line `build`.  Stated over the
version value: parsing the rendering returns the value, hence the
string round-trips. -/
theorem versionRoundTrip_amended :
    ∀ v : ChangelogVersion,
      ¬ (v.major = 0 ∧ v.minor = 0 ∧ v.patch = 0) →
      (∀ p, v.pre = some p → p.data ≠ [] ∧ ∀ c ∈ p.data, c ≠ '+') →
      (∀ b, v.build = some b → b.data ≠ [] ∧ ∀ c ∈ b.data, c ≠ '\n') →
      ChangelogVersion.fromStr (versionToString v) = some v
      ∧ (ChangelogVersion.fromStr (versionToString v)).map versionToString =
          some (versionToString v) := by
  intro v h0 hp hb
  have hvs : versionToString v = String.mk (versionChars v) := by
    rw [versionToString, if_neg h0]
  have hmain : ChangelogVersion.fromStr (versionToString v) = some v := by
    rw [hvs]
    show fromChars (versionChars v) = some v
    rw [fromChars, if_neg (versionChars_not_unreleased v)]
    exact matchVersionChars_versionChars v hp hb
  refine ⟨hmain, ?_⟩
  rw [hmain]
  rfl

/-- Witness for the amended C3 at `10.2.0-rc.1+build7`. -/
theorem versionRoundTrip_amended_witness :
    ChangelogVersion.fromStr (versionToString
        { major := 10, minor := 2, patch := 0, pre := some "rc.1", build := some "build7" }) =
      some { major := 10, minor := 2, patch := 0, pre := some "rc.1", build := some "build7" }
    ∧ (ChangelogVersion.fromStr (versionToString
        { major := 10, minor := 2, patch := 0, pre := some "rc.1", build := some "build7" })).map
          versionToString =
        some (versionToString
          { major := 10, minor := 2, patch := 0, pre := some "rc.1", build := some "build7" }) :=
  versionRoundTrip_amended
    { major := 10, minor := 2, patch := 0, pre := some "rc.1", build := some "build7" }
    (by decide)
    (fun p hpeq => by cases hpeq; exact ⟨by decide, by decide⟩)
    (fun b hbeq => by cases hbeq; exact ⟨by decide, by decide⟩)
